import Mathlib

/-
Verification of the Paperplay document organizer against its specification.

The repository contains two variants of the same single-file application:
  * `src/src/App.tsx`        — the "DocPlaylist" variant (namespace `DocPlaylist` below);
  * `src/unnamed/part_000`   — the "Paperplay" variant  (namespace `Paperplay` below).

Both variants are shallowly embedded here.  React state updates become pure
state transformers over `AppState`; the IndexedDB database becomes the
`PersistentStore` component of the state (a `put` is an upsert on a keyed
list, and a Boolean `putOk` / `ok` flag models whether an awaited `db.put`
durably commits or rejects); the MiniSearch index becomes the list of records
that were `add`ed to it, with the ranking function `search` kept as an opaque
parameter `String → List String` (it reads only the index and the query).
A thumbnail promise that settles is `some handle`; a promise that can never
settle (no handler ever fires) is `none`.  `crypto.randomUUID()` freshness is
an explicit hypothesis (`FreshItems`) on upload steps of the reachability
relations.  `Date.now()` timestamps are irrelevant to every verified property
and are fixed to `0`.  The raw `File` handle stored by the App.tsx variant is
opaque and unused by the state logic, so documents carry only the fields the
logic reads (id, name, thumbnail, addedAt).
-/

/-- A document record, as stored in state, the `documents` table and the
search index (fields `id`, `name`, `thumbnail`, `addedAt`). -/
structure Document where
  id : String
  name : String
  thumbnail : String
  addedAt : Nat
deriving DecidableEq

/-- A collection record: display name plus the array of member document ids. -/
structure Collection where
  id : String
  name : String
  documentIds : List String
deriving DecidableEq

/-- A record held by the MiniSearch index (`storeFields: ["id", "name", ...]`;
the stored thumbnail copy is irrelevant to every claim and omitted). -/
structure IndexEntry where
  id : String
  name : String
deriving DecidableEq

/-- The IndexedDB database: object stores `documents` and `collections`,
each keyed by `id`. -/
structure PersistentStore where
  documents : List Document
  collections : List Collection
deriving DecidableEq

/-- The whole program state: the React state (`documents`/`docs` and
`collections` arrays), the MiniSearch index contents, and the durable store. -/
structure AppState where
  documents : List Document
  collections : List Collection
  index : List IndexEntry
  store : PersistentStore
deriving DecidableEq

/-- An input `File` as far as the logic reads it: its `name`, its MIME
`type`, and whether decoding it as an image succeeds (`img.onload` fires)
rather than fails (`img.onerror`, or nothing, fires). -/
structure FileInput where
  name : String
  ftype : String
  decodeOk : Bool
deriving DecidableEq

/-- One file of an upload batch: the file, the fresh id produced by
`crypto.randomUUID()`, and whether the awaited `db.put` for it commits. -/
structure UploadItem where
  file : FileInput
  fid : String
  putOk : Bool
deriving DecidableEq

/-- The ids of a list of documents, in order. -/
def docIds (l : List Document) : List String :=
  l.map (fun d => d.id)

/-- The ids of a list of index entries, in order. -/
def idxIds (l : List IndexEntry) : List String :=
  l.map (fun e => e.id)

/-- `db.put("documents", d)`: upsert by the `id` key path. -/
def putDoc (tbl : List Document) (d : Document) : List Document :=
  if tbl.any (fun x => x.id == d.id) then tbl.map (fun x => if x.id == d.id then d else x)
  else tbl ++ [d]

/-- `db.put("collections", c)`: upsert by the `id` key path. -/
def putColl (tbl : List Collection) (c : Collection) : List Collection :=
  if tbl.any (fun x => x.id == c.id) then tbl.map (fun x => if x.id == c.id then c else x)
  else tbl ++ [c]

/-- Rebuilding the search index from scratch: `new MiniSearch(...)` followed
by `addAll(docs)` indexes exactly the given documents. -/
def rebuildIndex (docs : List Document) : List IndexEntry :=
  docs.map (fun d => ⟨d.id, d.name⟩)

/-- `file.name.replace(/\.[^/.]+$/, "")` — remove a trailing extension: a
final dot followed by one or more characters none of which is `/` or `.`.
Computed on the reversed character list: the candidate extension is the
maximal suffix free of `.` and `/`; it is stripped exactly when it is
non-empty and immediately preceded by a dot. -/
def stripExt (s : String) : String :=
  let r := s.data.reverse
  let ext := r.takeWhile (fun c => c ≠ '.' && c ≠ '/')
  let rest := r.dropWhile (fun c => c ≠ '.' && c ≠ '/')
  match rest with
  | '.' :: rs => if ext.isEmpty then s else ⟨rs.reverse⟩
  | _ => s

/-- `file.type.startsWith("image/")`, computed on the underlying character
lists (the byte-level `String.startsWith` does not reduce in the kernel but
is extensionally this test). -/
def isImageType (t : String) : Bool :=
  "image/".data.isPrefixOf t.data

/-- Opaque handle for the data URL of the 200×280 canvas onto which a
successfully decoded image was drawn (`canvas.toDataURL()`). -/
def canvasThumb (f : FileInput) : String :=
  "canvas200x280:" ++ f.name

/-- Freshness of the ids minted by `crypto.randomUUID()` for one upload
batch: pairwise distinct and unused in the snapshot and in the store. -/
def FreshItems (st : AppState) (items : List UploadItem) : Prop :=
  (items.map (fun it => it.fid)).Nodup ∧
  ∀ it ∈ items, it.fid ∉ docIds st.documents ∧ it.fid ∉ docIds st.store.documents

/-- The state invariant shared by both variants: snapshot and store document
ids are duplicate-free, the index holds exactly the stored documents, and
every collection's membership array is duplicate-free. -/
structure StateInv (st : AppState) : Prop where
  docsNodup : (docIds st.documents).Nodup
  storeNodup : (docIds st.store.documents).Nodup
  idxEq : idxIds st.index = docIds st.store.documents
  memNodup : ∀ c ∈ st.collections, c.documentIds.Nodup

namespace DocPlaylist

/-- `createThumbnail` of App.tsx.  A PDF resolves to the static
placeholder `/pdf-icon.png` (via a `FileReader` whose `onload` fires).
Every other file is decoded as an image; `onload` resolves the canvas
rendering, but no `onerror` handler exists, so a failed decode leaves the
promise unsettled forever (`none`). -/
def createThumbnail (f : FileInput) : Option String :=
  if f.ftype = "application/pdf" then some "/pdf-icon.png"
  else if f.decodeOk then some (canvasThumb f) else none

/-- `handleFileUpload` of App.tsx.  Per file, in order: await the thumbnail,
await `db.put("documents", doc)`, append to the `documents` state, then
`searchIndex.add`.  A thumbnail that never settles stalls the handler; a
rejected `put` throws out of it; either way the remaining files are not
processed and the failed file leaves no trace. -/
def upload (st : AppState) : List UploadItem → AppState
  | [] => st
  | it :: rest =>
    match createThumbnail it.file with
    | none => st
    | some thumb =>
      if it.putOk then
        upload { st with
          documents := st.documents ++ [⟨it.fid, it.file.name, thumb, 0⟩],
          index := st.index ++ [⟨it.fid, it.file.name⟩],
          store := { st.store with
            documents := putDoc st.store.documents ⟨it.fid, it.file.name, thumb, 0⟩ } } rest
      else st

/-- `createCollection` of App.tsx: reject a blank name, otherwise persist
the new empty collection and then append it to the snapshot (the `await`
means a rejected `put` leaves the snapshot untouched). -/
def createCollection (ok : Bool) (st : AppState) (name cid : String) : AppState :=
  if name.trim = "" then st
  else if ok then
    { st with
      collections := st.collections ++ [⟨cid, name, []⟩],
      store := { st.store with collections := putColl st.store.collections ⟨cid, name, []⟩ } }
  else st

/-- `handleDragEnd` of App.tsx: ignore a self-drop, look the target
collection up in the snapshot, ignore an unknown target or an already
present document id; otherwise build the updated record, await
`db.put("collections", updated)` (`ok` models its outcome; on rejection the
snapshot is untouched), then replace the record in the snapshot. -/
def handleDragEnd (ok : Bool) (st : AppState) (a o : String) : AppState :=
  if a = o then st
  else
    match st.collections.find? (fun c => c.id == o) with
    | none => st
    | some target =>
      if a ∈ target.documentIds then st
      else if ok then
        { st with
          collections := st.collections.map (fun c =>
            if c.id = o then { target with documentIds := target.documentIds ++ [a] } else c),
          store := { st.store with
            collections := putColl st.store.collections
              { target with documentIds := target.documentIds ++ [a] } } }
      else st

/-- `displayedDocs` of App.tsx: with a selected collection, filter the
snapshot by `selectedCollection.id === "all" || documentIds.includes(id)`;
with none selected, all documents. -/
def displayedDocs (sel : Option Collection) (docs : List Document) : List Document :=
  match sel with
  | some c => docs.filter (fun d => c.id == "all" || c.documentIds.contains d.id)
  | none => docs

/-- `filteredDocs` of App.tsx: a non-empty query resolves the index hits
against the snapshot, dropping unresolvable ids (`.filter(Boolean)`); an
empty query falls through to `displayedDocs`.  The MiniSearch ranking is the
opaque parameter `search`. -/
def filteredDocs (search : String → List String) (q : String) (sel : Option Collection)
    (docs : List Document) : List Document :=
  if q = "" then displayedDocs sel docs
  else (search q).filterMap (fun rid => docs.find? (fun d => d.id == rid))

/-- The query surface: selecting collection `collId` in the sidebar and
rendering with search text `q`. -/
def query (search : String → List String) (st : AppState) (collId q : String) : List Document :=
  filteredDocs search q (st.collections.find? (fun c => c.id == collId)) st.documents

/-- The sidebar document count of a rendered collection row. -/
def sidebarCount (st : AppState) (c : Collection) : Nat :=
  if c.id = "all" then st.documents.length else c.documentIds.length

/-- The startup effect of App.tsx: load both tables, synthesize the `"all"`
collection when no collections are stored, rebuild the search index. -/
def initApp (savedDocs : List Document) (savedColls : List Collection) : AppState :=
  { documents := savedDocs,
    collections :=
      if savedColls.isEmpty then [⟨"all", "All Documents", docIds savedDocs⟩] else savedColls,
    index := rebuildIndex savedDocs,
    store := ⟨savedDocs, savedColls⟩ }

/-- States reachable by the App.tsx variant from a fresh install (empty
store), under fresh upload ids. -/
inductive Reach : AppState → Prop where
  | start : Reach (initApp [] [])
  | upload {st : AppState} (items : List UploadItem) :
      Reach st → FreshItems st items → Reach (upload st items)
  | mkColl {st : AppState} (ok : Bool) (name cid : String) :
      Reach st → Reach (createCollection ok st name cid)
  | drag {st : AppState} (ok : Bool) (a o : String) :
      Reach st → Reach (handleDragEnd ok st a o)

end DocPlaylist

namespace Paperplay

/-- `createFallbackThumbnail` of part_000: the three static SVG data URLs
keyed by kind. -/
def createFallbackThumbnail (t : String) : String :=
  if t = "pdf" then
    "data:image/svg+xml;base64,PHN2ZyB3aWR0aD0iMjAwIiBoZWlnaHQ9IjI4MCIgeG1sbnM9Imh0dHA6Ly93d3cudzMub3JnLzIwMDAvc3ZnIj48cmVjdCB3aWR0aD0iMTAwJSIgaGVpZ2h0PSIxMDAlIiBmaWxsPSIjRkY0QTAwIi8+PHRleHQgeD0iNTAlIiB5PSI1MCUiIGZvbnQtc2l6ZT0iMTgiIHRleHQtYW5jaG9yPSJtaWRkbGUiIGR5PSIuM2VtIiBmaWxsPSIjMDAwIj5QREY8L3RleHQ+PC9zdmc+"
  else if t = "image" then
    "data:image/svg+xml;base64,PHN2ZyB3aWR0aD0iMjAwIiBoZWlnaHQ9IjI4MCIgeG1sbnM9Imh0dHA6Ly93d3cudzMub3JnLzIwMDAvc3ZnIj48cmVjdCB3aWR0aD0iMTAwJSIgaGVpZ2h0PSIxMDAlIiBmaWxsPSIjRkZGRkZGIi8+PHRleHQgeD0iNTAlIiB5PSI1MCUiIGZvbnQtc2l6ZT0iMTgiIHRleHQtYW5jaG9yPSJtaWRkbGUiIGR5PSIuM2VtIiBmaWxsPSIjOTk5Ij5JbWFnZTwvdGV4dD48L3N2Zz4="
  else
    "data:image/svg+xml;base64,PHN2ZyB3aWR0aD0iMjAwIiBoZWlnaHQ9IjI4MCIgeG1sbnM9Imh0dHA6Ly93d3cudzMub3JnLzIwMDAvc3ZnIj48cmVjdCB3aWR0aD0iMTAwJSIgaGVpZ2h0PSIxMDAlIiBmaWxsPSIjREREOERFIi8+PHRleHQgeD0iNTAlIiB5PSI1MCUiIGZvbnQtc2l6ZT0iMTgiIHRleHQtYW5jaG9yPSJtaWRkbGUiIGR5PSIuM2VtIiBmaWxsPSIjOTk5Ij5GaWxlPC90ZXh0Pjwvc3ZnPg=="

/-- `createThumbnail` of part_000: an `image/*` file resolves to the canvas
rendering on `onload` and to the image placeholder on `onerror`; a PDF and
everything else resolve immediately to their placeholders.  Every branch
settles. -/
def createThumbnail (f : FileInput) : Option String :=
  if isImageType f.ftype then
    some (if f.decodeOk then canvasThumb f else createFallbackThumbnail "image")
  else if f.ftype = "application/pdf" then some (createFallbackThumbnail "pdf")
  else some (createFallbackThumbnail "file")

/-- Intermediate result of part_000's upload loop: the `documents` table,
the (mutated) search index, the `newDocs` accumulator, and whether the loop
ran to completion (a rejected `put` jumps to the `catch`; `success = false`
also models a thumbnail promise that never settles, which part_000's
generator never produces). -/
structure UploadLoopRes where
  storeDocs : List Document
  index : List IndexEntry
  newDocs : List Document
  success : Bool
deriving DecidableEq

/-- The `for` loop of part_000's `handleUpload`: per file await the
thumbnail, build the document with the extension-stripped name, await
`db.put`, push onto `newDocs`, and mutate the search index.  A rejected
`put` aborts the loop body (caught outside), keeping the effects of the
files already processed. -/
def uploadLoop (sd : List Document) (ix : List IndexEntry) (nd : List Document) :
    List UploadItem → UploadLoopRes
  | [] => ⟨sd, ix, nd, true⟩
  | it :: rest =>
    match createThumbnail it.file with
    | none => ⟨sd, ix, nd, false⟩
    | some thumb =>
      if it.putOk then
        uploadLoop (putDoc sd ⟨it.fid, stripExt it.file.name, thumb, 0⟩)
          (ix ++ [⟨it.fid, stripExt it.file.name⟩])
          (nd ++ [⟨it.fid, stripExt it.file.name, thumb, 0⟩]) rest
      else ⟨sd, ix, nd, false⟩

/-- `handleUpload` of part_000: run the loop; only when it completes do the
post-loop updates run — `setDocs(docs ++ newDocs)` and the rewrite of the
`"all"` collection's membership to the new full id list (snapshot only; this
variant does not persist the `"all"` record here).  On a caught error the
snapshot keeps only the store/index effects of the processed files. -/
def upload (st : AppState) (items : List UploadItem) : AppState :=
  let r := uploadLoop st.store.documents st.index [] items
  if r.success then
    { documents := st.documents ++ r.newDocs,
      collections := st.collections.map (fun c =>
        if c.id = "all" then { c with documentIds := docIds (st.documents ++ r.newDocs) } else c),
      index := r.index,
      store := { st.store with documents := r.storeDocs } }
  else
    { st with index := r.index, store := { st.store with documents := r.storeDocs } }

/-- `createCollection` of part_000: identical guard and write-then-reflect
ordering as the App.tsx variant (the `try`/`catch` swallows a rejected `put`
before `setCollections` runs). -/
def createCollection (ok : Bool) (st : AppState) (name cid : String) : AppState :=
  if name.trim = "" then st
  else if ok then
    { st with
      collections := st.collections ++ [⟨cid, name, []⟩],
      store := { st.store with collections := putColl st.store.collections ⟨cid, name, []⟩ } }
  else st

/-- The per-collection update applied inside part_000's
`setCollections(prev.map(...))`: append the dragged id to the matching
collection when it is not yet a member. -/
def assignTo (a o : String) (c : Collection) : Collection :=
  if c.id = o ∧ a ∉ c.documentIds then { c with documentIds := c.documentIds ++ [a] } else c

/-- The `db.put` calls fired (without `await`) from inside that `map`, one
for each collection the update touches, in order. -/
def persistAssigned (a o : String) (s : List Collection) (l : List Collection) :
    List Collection :=
  l.foldl (fun acc c =>
    if c.id = o ∧ a ∉ c.documentIds then putColl acc (assignTo a o c) else acc) s

/-- `handleDragEnd` of part_000: ignore a self-drop and the `"all"` target;
otherwise update the snapshot via the `map` and fire the corresponding
fire-and-forget `put`s (`ok` models whether those durably commit — the
snapshot update does not wait for them). -/
def handleDragEnd (ok : Bool) (st : AppState) (a o : String) : AppState :=
  if a = o then st
  else if o = "all" then st
  else
    { st with
      collections := st.collections.map (assignTo a o),
      store := { st.store with
        collections :=
          if ok then persistAssigned a o st.store.collections st.collections
          else st.store.collections } }

/-- `displayedDocs` of part_000: the whole snapshot for `"all"`, the
membership filter otherwise, the whole snapshot when nothing is selected. -/
def displayedDocs (sel : Option Collection) (docs : List Document) : List Document :=
  match sel with
  | some c => if c.id = "all" then docs else docs.filter (fun d => c.documentIds.contains d.id)
  | none => docs

/-- `filteredDocs` of part_000: same shape as the App.tsx variant. -/
def filteredDocs (search : String → List String) (q : String) (sel : Option Collection)
    (docs : List Document) : List Document :=
  if q = "" then displayedDocs sel docs
  else (search q).filterMap (fun rid => docs.find? (fun d => d.id == rid))

/-- The query surface of part_000. -/
def query (search : String → List String) (st : AppState) (collId q : String) : List Document :=
  filteredDocs search q (st.collections.find? (fun c => c.id == collId)) st.documents

/-- The sidebar document count of a rendered collection row. -/
def sidebarCount (st : AppState) (c : Collection) : Nat :=
  if c.id = "all" then st.documents.length else c.documentIds.length

/-- The startup effect of part_000 (same synthesis of `"all"` as App.tsx). -/
def initApp (savedDocs : List Document) (savedColls : List Collection) : AppState :=
  { documents := savedDocs,
    collections :=
      if savedColls.isEmpty then [⟨"all", "All Documents", docIds savedDocs⟩] else savedColls,
    index := rebuildIndex savedDocs,
    store := ⟨savedDocs, savedColls⟩ }

/-- States reachable by the part_000 variant from a fresh install. -/
inductive Reach : AppState → Prop where
  | start : Reach (initApp [] [])
  | upload {st : AppState} (items : List UploadItem) :
      Reach st → FreshItems st items → Reach (upload st items)
  | mkColl {st : AppState} (ok : Bool) (name cid : String) :
      Reach st → Reach (createCollection ok st name cid)
  | drag {st : AppState} (ok : Bool) (a o : String) :
      Reach st → Reach (handleDragEnd ok st a o)

end Paperplay

/-! ### Basic lemmas about the shared primitives -/

theorem docIds_append (l m : List Document) : docIds (l ++ m) = docIds l ++ docIds m := by
  simp [docIds]

theorem mem_docIds {i : String} {l : List Document} :
    i ∈ docIds l ↔ ∃ d ∈ l, d.id = i := by
  simp [docIds]

theorem putDoc_fresh {l : List Document} {d : Document} (h : d.id ∉ docIds l) :
    putDoc l d = l ++ [d] := by
  have ha : l.any (fun x => x.id == d.id) = false := by
    rw [List.any_eq_false]
    intro x hx
    simp only [beq_iff_eq]
    intro hxd
    exact h (mem_docIds.mpr ⟨x, hx, hxd⟩)
  simp [putDoc, ha]

theorem idxIds_append (l m : List IndexEntry) : idxIds (l ++ m) = idxIds l ++ idxIds m := by
  simp [idxIds]

theorem idxIds_rebuild (docs : List Document) : idxIds (rebuildIndex docs) = docIds docs := by
  simp [idxIds, rebuildIndex, docIds]

/-! ### App.tsx variant: structural lemmas -/

theorem app_upload_docs (items : List UploadItem) :
    ∀ st : AppState, ∃ added : List Document,
      (DocPlaylist.upload st items).documents = st.documents ++ added ∧
      (DocPlaylist.upload st items).collections = st.collections ∧
      ∀ d ∈ added, ∃ it ∈ items, d.name = it.file.name := by
  induction items with
  | nil => intro st; exact ⟨[], by simp [DocPlaylist.upload], by simp [DocPlaylist.upload], by simp⟩
  | cons it rest ih =>
    intro st
    cases hth : DocPlaylist.createThumbnail it.file with
    | none =>
      refine ⟨[], ?_, ?_, by simp⟩ <;> simp [DocPlaylist.upload, hth]
    | some thumb =>
      by_cases hok : it.putOk = true
      · obtain ⟨added, h1, h2, h3⟩ := ih
          { st with
            documents := st.documents ++ [⟨it.fid, it.file.name, thumb, 0⟩],
            index := st.index ++ [⟨it.fid, it.file.name⟩],
            store := { st.store with
              documents := putDoc st.store.documents ⟨it.fid, it.file.name, thumb, 0⟩ } }
        refine ⟨⟨it.fid, it.file.name, thumb, 0⟩ :: added, ?_, ?_, ?_⟩
        · simpa [DocPlaylist.upload, hth, hok] using h1
        · simpa [DocPlaylist.upload, hth, hok] using h2
        · intro d hd
          rcases List.mem_cons.mp hd with hd | hd
          · exact ⟨it, by simp, by rw [hd]⟩
          · obtain ⟨it2, hit2, hn⟩ := h3 d hd
            exact ⟨it2, by simp [hit2], hn⟩
      · refine ⟨[], ?_, ?_, by simp⟩ <;> simp [DocPlaylist.upload, hth, hok]

theorem app_upload_inv {st : AppState} {items : List UploadItem}
    (hinv : StateInv st) (hfr : FreshItems st items) :
    StateInv (DocPlaylist.upload st items) := by
  induction items generalizing st with
  | nil => simpa [DocPlaylist.upload] using hinv
  | cons it rest ih =>
    cases hth : DocPlaylist.createThumbnail it.file with
    | none => simpa [DocPlaylist.upload, hth] using hinv
    | some thumb =>
      by_cases hok : it.putOk = true
      · obtain ⟨hnd, hmem⟩ := hfr
        obtain ⟨hd1, hd2⟩ := hmem it (by simp)
        have hstep : DocPlaylist.upload st (it :: rest) =
            DocPlaylist.upload
              { st with
                documents := st.documents ++ [⟨it.fid, it.file.name, thumb, 0⟩],
                index := st.index ++ [⟨it.fid, it.file.name⟩],
                store := { st.store with
                  documents := putDoc st.store.documents ⟨it.fid, it.file.name, thumb, 0⟩ } }
              rest := by
          simp [DocPlaylist.upload, hth, hok]
        rw [hstep]
        have hnd' : it.fid ∉ rest.map (fun x => x.fid) ∧ (rest.map (fun x => x.fid)).Nodup := by
          rw [List.map_cons, List.nodup_cons] at hnd
          exact hnd
        have hfidrest : ∀ it2 ∈ rest, it2.fid ≠ it.fid := by
          intro it2 h2 heq
          exact hnd'.1 (List.mem_map.mpr ⟨it2, h2, heq⟩)
        apply ih
        · constructor
          · rw [docIds_append]
            rw [List.nodup_append]
            refine ⟨hinv.docsNodup, by simp [docIds], ?_⟩
            intro x hx hx2
            simp [docIds] at hx2
            exact hd1 (hx2 ▸ hx)
          · rw [putDoc_fresh hd2, docIds_append, List.nodup_append]
            refine ⟨hinv.storeNodup, by simp [docIds], ?_⟩
            intro x hx hx2
            simp [docIds] at hx2
            exact hd2 (hx2 ▸ hx)
          · rw [putDoc_fresh hd2, idxIds_append, docIds_append, hinv.idxEq]
            simp [idxIds, docIds]
          · intro c hc
            exact hinv.memNodup c hc
        · constructor
          · exact hnd'.2
          · intro it2 h2
            obtain ⟨h21, h22⟩ := hmem it2 (by simp [h2])
            rw [putDoc_fresh hd2]
            constructor
            · rw [docIds_append]
              simp [docIds] at h21 ⊢
              exact ⟨h21, fun h => hfidrest it2 h2 h⟩
            · rw [docIds_append]
              simp [docIds] at h22 ⊢
              exact ⟨h22, fun h => hfidrest it2 h2 h⟩
      · simpa [DocPlaylist.upload, hth, hok] using hinv

theorem app_mkColl_inv {st : AppState} (hinv : StateInv st) (ok : Bool) (name cid : String) :
    StateInv (DocPlaylist.createCollection ok st name cid) := by
  unfold DocPlaylist.createCollection
  by_cases h1 : name.trim = ""
  · simpa [h1] using hinv
  cases ok with
  | false => simpa [h1] using hinv
  | true =>
    simp only [h1, if_false, if_true, ite_false, ite_true]
    constructor
    · exact hinv.docsNodup
    · exact hinv.storeNodup
    · exact hinv.idxEq
    · intro c hc
      rcases List.mem_append.mp hc with hc | hc
      · exact hinv.memNodup c hc
      · simp at hc
        simp [hc]

theorem app_drag_inv {st : AppState} (hinv : StateInv st) (ok : Bool) (a o : String) :
    StateInv (DocPlaylist.handleDragEnd ok st a o) := by
  unfold DocPlaylist.handleDragEnd
  by_cases h1 : a = o
  · simpa [h1] using hinv
  simp only [if_neg h1]
  cases hfind : st.collections.find? (fun c => c.id == o) with
  | none => exact hinv
  | some target =>
    by_cases h2 : a ∈ target.documentIds
    · simpa [h2] using hinv
    cases ok with
    | false => simpa [h2] using hinv
    | true =>
      simp only [h2, if_false, if_true, ite_false, ite_true]
      constructor
      · exact hinv.docsNodup
      · exact hinv.storeNodup
      · exact hinv.idxEq
      · intro c hc
        obtain ⟨c0, hc0, hceq⟩ := List.mem_map.mp hc
        by_cases h3 : c0.id = o
        · rw [if_pos h3] at hceq
          rw [← hceq]
          simp only []
          rw [List.nodup_append]
          refine ⟨hinv.memNodup target (List.mem_of_find?_eq_some hfind), by simp, ?_⟩
          intro x hx hx2
          simp at hx2
          exact h2 (hx2 ▸ hx)
        · rw [if_neg h3] at hceq
          rw [← hceq]
          exact hinv.memNodup c0 hc0

theorem app_init_inv : StateInv (DocPlaylist.initApp [] []) := by
  constructor <;> simp [DocPlaylist.initApp, docIds, idxIds, rebuildIndex]

theorem app_reach_inv {st : AppState} (h : DocPlaylist.Reach st) : StateInv st := by
  induction h with
  | start => exact app_init_inv
  | upload items _ hfr ih => exact app_upload_inv ih hfr
  | mkColl ok name cid _ ih => exact app_mkColl_inv ih ok name cid
  | drag ok a o _ ih => exact app_drag_inv ih ok a o

/-! ### part_000 variant: structural lemmas -/

theorem p0_uploadLoop_plain (items : List UploadItem) :
    ∀ (sd : List Document) (ix : List IndexEntry) (nd : List Document),
      ∃ added : List Document,
        (Paperplay.uploadLoop sd ix nd items).newDocs = nd ++ added ∧
        ∀ d ∈ added, ∃ it ∈ items, d.name = stripExt it.file.name := by
  induction items with
  | nil => intro sd ix nd; exact ⟨[], by simp [Paperplay.uploadLoop], by simp⟩
  | cons it rest ih =>
    intro sd ix nd
    cases hth : Paperplay.createThumbnail it.file with
    | none => exact ⟨[], by simp [Paperplay.uploadLoop, hth], by simp⟩
    | some thumb =>
      by_cases hok : it.putOk = true
      · obtain ⟨added, h1, h2⟩ := ih (putDoc sd ⟨it.fid, stripExt it.file.name, thumb, 0⟩)
          (ix ++ [⟨it.fid, stripExt it.file.name⟩])
          (nd ++ [⟨it.fid, stripExt it.file.name, thumb, 0⟩])
        refine ⟨⟨it.fid, stripExt it.file.name, thumb, 0⟩ :: added, ?_, ?_⟩
        · rw [show Paperplay.uploadLoop sd ix nd (it :: rest) =
              Paperplay.uploadLoop (putDoc sd ⟨it.fid, stripExt it.file.name, thumb, 0⟩)
                (ix ++ [⟨it.fid, stripExt it.file.name⟩])
                (nd ++ [⟨it.fid, stripExt it.file.name, thumb, 0⟩]) rest from by
            simp [Paperplay.uploadLoop, hth, hok]]
          rw [h1]
          simp
        · intro d hd
          rcases List.mem_cons.mp hd with hd | hd
          · exact ⟨it, by simp, by rw [hd]⟩
          · obtain ⟨it2, hit2, hn⟩ := h2 d hd
            exact ⟨it2, by simp [hit2], hn⟩
      · exact ⟨[], by simp [Paperplay.uploadLoop, hth, hok], by simp⟩

theorem p0_upload_docs (st : AppState) (items : List UploadItem) :
    ∃ added : List Document,
      (Paperplay.upload st items).documents = st.documents ++ added ∧
      ∀ d ∈ added, ∃ it ∈ items, d.name = stripExt it.file.name := by
  obtain ⟨added, h1, h2⟩ := p0_uploadLoop_plain items st.store.documents st.index []
  by_cases hs : (Paperplay.uploadLoop st.store.documents st.index [] items).success = true
  · exact ⟨added, by simp [Paperplay.upload, hs, h1], h2⟩
  · exact ⟨[], by simp [Paperplay.upload, hs], by simp⟩

theorem p0_uploadLoop_fresh (items : List UploadItem) :
    ∀ (sd : List Document) (ix : List IndexEntry) (nd : List Document),
      (items.map (fun it => it.fid)).Nodup →
      (∀ it ∈ items, it.fid ∉ docIds sd) →
      ∃ added : List Document,
        (Paperplay.uploadLoop sd ix nd items).storeDocs = sd ++ added ∧
        (Paperplay.uploadLoop sd ix nd items).index = ix ++ rebuildIndex added ∧
        (Paperplay.uploadLoop sd ix nd items).newDocs = nd ++ added ∧
        (docIds added).Nodup ∧
        (∀ i ∈ docIds added, ∃ it ∈ items, i = it.fid) := by
  induction items with
  | nil =>
    intro sd ix nd _ _
    exact ⟨[], by simp [Paperplay.uploadLoop], by simp [Paperplay.uploadLoop, rebuildIndex],
      by simp [Paperplay.uploadLoop], by simp [docIds], by simp [docIds]⟩
  | cons it rest ih =>
    intro sd ix nd hnd hfr
    have hnd' : it.fid ∉ rest.map (fun x => x.fid) ∧ (rest.map (fun x => x.fid)).Nodup := by
      rw [List.map_cons, List.nodup_cons] at hnd
      exact hnd
    have hfid : it.fid ∉ docIds sd := hfr it (by simp)
    cases hth : Paperplay.createThumbnail it.file with
    | none =>
      exact ⟨[], by simp [Paperplay.uploadLoop, hth], by simp [Paperplay.uploadLoop, hth, rebuildIndex],
        by simp [Paperplay.uploadLoop, hth], by simp [docIds], by simp [docIds]⟩
    | some thumb =>
      by_cases hok : it.putOk = true
      · have hput : putDoc sd ⟨it.fid, stripExt it.file.name, thumb, 0⟩ =
            sd ++ [⟨it.fid, stripExt it.file.name, thumb, 0⟩] :=
          putDoc_fresh (by exact hfr it (by simp))
        obtain ⟨added, h1, h2, h3, h4, h5⟩ := ih
          (putDoc sd ⟨it.fid, stripExt it.file.name, thumb, 0⟩)
          (ix ++ [⟨it.fid, stripExt it.file.name⟩])
          (nd ++ [⟨it.fid, stripExt it.file.name, thumb, 0⟩])
          hnd'.2
          (by
            intro it2 h2m
            rw [hput, docIds_append]
            intro hmem
            rcases List.mem_append.mp hmem with hmem | hmem
            · exact hfr it2 (by simp [h2m]) hmem
            · have heq : it2.fid = it.fid := by simpa [docIds] using hmem
              exact hnd'.1 (List.mem_map.mpr ⟨it2, h2m, heq⟩))
        have hstep : Paperplay.uploadLoop sd ix nd (it :: rest) =
            Paperplay.uploadLoop (putDoc sd ⟨it.fid, stripExt it.file.name, thumb, 0⟩)
              (ix ++ [⟨it.fid, stripExt it.file.name⟩])
              (nd ++ [⟨it.fid, stripExt it.file.name, thumb, 0⟩]) rest := by
          simp [Paperplay.uploadLoop, hth, hok]
        refine ⟨⟨it.fid, stripExt it.file.name, thumb, 0⟩ :: added, ?_, ?_, ?_, ?_, ?_⟩
        · rw [hstep, h1, hput]
          simp
        · rw [hstep, h2]
          simp [rebuildIndex]
        · rw [hstep, h3]
          simp
        · simp only [docIds, List.map_cons, List.nodup_cons]
          refine ⟨?_, h4⟩
          intro hmem
          obtain ⟨it2, hit2, heq⟩ := h5 it.fid (by simpa [docIds] using hmem)
          exact hnd'.1 (List.mem_map.mpr ⟨it2, hit2, heq.symm⟩)
        · intro i hi
          simp only [docIds, List.map_cons] at hi
          rcases List.mem_cons.mp hi with hi | hi
          · exact ⟨it, by simp, hi⟩
          · obtain ⟨it2, hit2, heq⟩ := h5 i hi
            exact ⟨it2, by simp [hit2], heq⟩
      · exact ⟨[], by simp [Paperplay.uploadLoop, hth, hok],
          by simp [Paperplay.uploadLoop, hth, hok, rebuildIndex],
          by simp [Paperplay.uploadLoop, hth, hok], by simp [docIds], by simp [docIds]⟩

theorem p0_upload_inv {st : AppState} {items : List UploadItem}
    (hinv : StateInv st) (hfr : FreshItems st items) :
    StateInv (Paperplay.upload st items) := by
  obtain ⟨hnd, hmem⟩ := hfr
  obtain ⟨added, h1, h2, h3, h4, h5⟩ :=
    p0_uploadLoop_fresh items st.store.documents st.index [] hnd (fun it h => (hmem it h).2)
  have hnew : (Paperplay.uploadLoop st.store.documents st.index [] items).newDocs = added := by
    simpa using h3
  have hdocsN : (docIds (st.documents ++ added)).Nodup := by
    rw [docIds_append, List.nodup_append]
    refine ⟨hinv.docsNodup, h4, ?_⟩
    intro x hx hx2
    obtain ⟨it, hit, heq⟩ := h5 x hx2
    exact (hmem it hit).1 (heq ▸ hx)
  have hstoreN : (docIds (st.store.documents ++ added)).Nodup := by
    rw [docIds_append, List.nodup_append]
    refine ⟨hinv.storeNodup, h4, ?_⟩
    intro x hx hx2
    obtain ⟨it, hit, heq⟩ := h5 x hx2
    exact (hmem it hit).2 (heq ▸ hx)
  have hidx : idxIds (Paperplay.uploadLoop st.store.documents st.index [] items).index =
      docIds (Paperplay.uploadLoop st.store.documents st.index [] items).storeDocs := by
    rw [h1, h2, idxIds_append, idxIds_rebuild, docIds_append, hinv.idxEq]
  by_cases hs : (Paperplay.uploadLoop st.store.documents st.index [] items).success = true
  · simp only [Paperplay.upload, hs, if_true]
    constructor
    · simpa [hnew] using hdocsN
    · simpa [h1] using hstoreN
    · exact hidx
    · intro c hc
      obtain ⟨c0, hc0, hceq⟩ := List.mem_map.mp hc
      by_cases hall : c0.id = "all"
      · rw [if_pos hall] at hceq
        rw [← hceq]
        simpa [hnew] using hdocsN
      · rw [if_neg hall] at hceq
        rw [← hceq]
        exact hinv.memNodup c0 hc0
  · simp only [Paperplay.upload, hs, if_false, Bool.false_eq_true]
    constructor
    · exact hinv.docsNodup
    · simpa [h1] using hstoreN
    · exact hidx
    · intro c hc
      exact hinv.memNodup c hc

theorem p0_mkColl_inv {st : AppState} (hinv : StateInv st) (ok : Bool) (name cid : String) :
    StateInv (Paperplay.createCollection ok st name cid) := by
  unfold Paperplay.createCollection
  by_cases h1 : name.trim = ""
  · simpa [h1] using hinv
  cases ok with
  | false => simpa [h1] using hinv
  | true =>
    simp only [h1, if_false, if_true, ite_false, ite_true]
    constructor
    · exact hinv.docsNodup
    · exact hinv.storeNodup
    · exact hinv.idxEq
    · intro c hc
      rcases List.mem_append.mp hc with hc | hc
      · exact hinv.memNodup c hc
      · simp at hc
        simp [hc]

theorem p0_drag_inv {st : AppState} (hinv : StateInv st) (ok : Bool) (a o : String) :
    StateInv (Paperplay.handleDragEnd ok st a o) := by
  unfold Paperplay.handleDragEnd
  by_cases h1 : a = o
  · simpa [h1] using hinv
  by_cases h2 : o = "all"
  · simpa [h1, h2] using hinv
  simp only [if_neg h1, if_neg h2]
  constructor
  · exact hinv.docsNodup
  · exact hinv.storeNodup
  · exact hinv.idxEq
  · intro c hc
    obtain ⟨c0, hc0, hceq⟩ := List.mem_map.mp hc
    rw [← hceq]
    unfold Paperplay.assignTo
    by_cases h3 : c0.id = o ∧ a ∉ c0.documentIds
    · rw [if_pos h3]
      simp only []
      rw [List.nodup_append]
      refine ⟨hinv.memNodup c0 hc0, by simp, ?_⟩
      intro x hx hx2
      simp at hx2
      exact h3.2 (hx2 ▸ hx)
    · rw [if_neg h3]
      exact hinv.memNodup c0 hc0

theorem p0_init_inv : StateInv (Paperplay.initApp [] []) := by
  constructor <;> simp [Paperplay.initApp, docIds, idxIds, rebuildIndex]

theorem p0_reach_inv {st : AppState} (h : Paperplay.Reach st) : StateInv st := by
  induction h with
  | start => exact p0_init_inv
  | upload items _ hfr ih => exact p0_upload_inv ih hfr
  | mkColl ok name cid _ ih => exact p0_mkColl_inv ih ok name cid
  | drag ok a o _ ih => exact p0_drag_inv ih ok a o

/-! ### Drag-gesture lemmas -/

theorem app_drag_docs (ok : Bool) (st : AppState) (a o : String) :
    (DocPlaylist.handleDragEnd ok st a o).documents = st.documents := by
  unfold DocPlaylist.handleDragEnd
  by_cases h1 : a = o
  · simp [h1]
  simp only [if_neg h1]
  cases st.collections.find? (fun c => c.id == o) with
  | none => rfl
  | some target =>
    by_cases h2 : a ∈ target.documentIds
    · simp [h2]
    cases ok <;> simp [h2]

theorem app_drag_fail (st : AppState) (a o : String) :
    DocPlaylist.handleDragEnd false st a o = st := by
  unfold DocPlaylist.handleDragEnd
  by_cases h1 : a = o
  · simp [h1]
  simp only [if_neg h1]
  cases st.collections.find? (fun c => c.id == o) with
  | none => rfl
  | some target =>
    by_cases h2 : a ∈ target.documentIds <;> simp [h2]

theorem app_drag_member {st : AppState} {a o : String} {target : Collection}
    (hfind : st.collections.find? (fun c => c.id == o) = some target)
    (hmem : a ∈ target.documentIds) (ok : Bool) :
    DocPlaylist.handleDragEnd ok st a o = st := by
  unfold DocPlaylist.handleDragEnd
  by_cases h1 : a = o
  · simp [h1]
  simp [if_neg h1, hfind, hmem]

theorem app_drag_unknown {st : AppState} {o : String}
    (h : ∀ c ∈ st.collections, c.id ≠ o) (ok : Bool) (a : String) :
    DocPlaylist.handleDragEnd ok st a o = st := by
  have hfind : st.collections.find? (fun c => c.id == o) = none := by
    rw [List.find?_eq_none]
    intro c hc
    simp [beq_iff_eq]
    exact h c hc
  unfold DocPlaylist.handleDragEnd
  by_cases h1 : a = o
  · simp [h1]
  simp [if_neg h1, hfind]

theorem p0_assignTo_noop {a o : String} {c : Collection}
    (h : c.id = o → a ∈ c.documentIds) : Paperplay.assignTo a o c = c := by
  unfold Paperplay.assignTo
  rw [if_neg]
  rintro ⟨h1, h2⟩
  exact h2 (h h1)

theorem p0_persistAssigned_noop {a o : String} {l : List Collection}
    (h : ∀ c ∈ l, c.id = o → a ∈ c.documentIds) :
    ∀ s : List Collection, Paperplay.persistAssigned a o s l = s := by
  induction l with
  | nil => intro s; rfl
  | cons c rest ih =>
    intro s
    have hc : ¬(c.id = o ∧ a ∉ c.documentIds) := by
      rintro ⟨h1, h2⟩
      exact h2 (h c (by simp) h1)
    show List.foldl _ _ (c :: rest) = s
    rw [List.foldl_cons]
    simp only [if_neg hc]
    exact ih (fun c2 hc2 => h c2 (by simp [hc2])) s

theorem p0_map_assignTo_noop {a o : String} {l : List Collection}
    (h : ∀ c ∈ l, c.id = o → a ∈ c.documentIds) :
    l.map (Paperplay.assignTo a o) = l := by
  have : ∀ c ∈ l, Paperplay.assignTo a o c = c := fun c hc => p0_assignTo_noop (h c hc)
  calc l.map (Paperplay.assignTo a o) = l.map (fun c => c) := List.map_congr_left this
    _ = l := List.map_id' l

theorem p0_drag_member {st : AppState} {a o : String}
    (h : ∀ c ∈ st.collections, c.id = o → a ∈ c.documentIds) (ok : Bool) :
    Paperplay.handleDragEnd ok st a o = st := by
  unfold Paperplay.handleDragEnd
  by_cases h1 : a = o
  · simp [h1]
  by_cases h2 : o = "all"
  · simp [h1, h2]
  simp only [if_neg h1, if_neg h2]
  rw [p0_map_assignTo_noop h, p0_persistAssigned_noop h]
  cases ok <;> simp

theorem p0_drag_all (ok : Bool) (st : AppState) (a : String) :
    Paperplay.handleDragEnd ok st a "all" = st := by
  unfold Paperplay.handleDragEnd
  by_cases h1 : a = "all"
  · simp [h1]
  simp [if_neg h1]

theorem p0_drag_unknown {st : AppState} {o : String}
    (h : ∀ c ∈ st.collections, c.id ≠ o) (ok : Bool) (a : String) :
    Paperplay.handleDragEnd ok st a o = st := by
  apply p0_drag_member
  intro c hc h1
  exact absurd h1 (h c hc)

theorem p0_drag_fail_store (st : AppState) (a o : String) :
    (Paperplay.handleDragEnd false st a o).store = st.store ∧
    (Paperplay.handleDragEnd false st a o).documents = st.documents := by
  unfold Paperplay.handleDragEnd
  by_cases h1 : a = o
  · simp [h1]
  by_cases h2 : o = "all"
  · simp [h1, h2]
  simp [if_neg h1, if_neg h2]

/-! ### Query-surface lemmas -/

theorem app_query_empty (search : String → List String) (st : AppState) (collId : String) :
    DocPlaylist.query search st collId "" =
      DocPlaylist.displayedDocs (st.collections.find? (fun c => c.id == collId)) st.documents := by
  simp [DocPlaylist.query, DocPlaylist.filteredDocs]

theorem p0_query_empty (search : String → List String) (st : AppState) (collId : String) :
    Paperplay.query search st collId "" =
      Paperplay.displayedDocs (st.collections.find? (fun c => c.id == collId)) st.documents := by
  simp [Paperplay.query, Paperplay.filteredDocs]

theorem app_displayedDocs_all {c : Collection} (h : c.id = "all") (docs : List Document) :
    DocPlaylist.displayedDocs (some c) docs = docs := by
  simp [DocPlaylist.displayedDocs, h]

theorem p0_displayedDocs_all {c : Collection} (h : c.id = "all") (docs : List Document) :
    Paperplay.displayedDocs (some c) docs = docs := by
  simp [Paperplay.displayedDocs, h]

theorem app_query_all (search : String → List String) (st : AppState) :
    DocPlaylist.query search st "all" "" = st.documents := by
  rw [app_query_empty]
  cases hfind : st.collections.find? (fun c => c.id == "all") with
  | none => rfl
  | some co =>
    have hco : co.id = "all" := by
      have := List.find?_some hfind
      simpa [beq_iff_eq] using this
    exact app_displayedDocs_all hco st.documents

theorem p0_query_all (search : String → List String) (st : AppState) :
    Paperplay.query search st "all" "" = st.documents := by
  rw [p0_query_empty]
  cases hfind : st.collections.find? (fun c => c.id == "all") with
  | none => rfl
  | some co =>
    have hco : co.id = "all" := by
      have := List.find?_some hfind
      simpa [beq_iff_eq] using this
    exact p0_displayedDocs_all hco st.documents

/-! ### Claim C1 -/

/-- Claim C1: in every state (reachable or not), the effective membership of
the synthetic `"all"` collection observed at query time — via
`query("all", "")` and the sidebar count — equals the full document list of
the snapshot, in both variants, regardless of the `documentIds` array the
in-memory `"all"` record carries and regardless of the Persistent Store
contents (the query surface never reads the store). -/
theorem c1_all_effective_membership :
    (∀ (st : AppState) (c : Collection), c.id = "all" →
        DocPlaylist.displayedDocs (some c) st.documents = st.documents ∧
        DocPlaylist.sidebarCount st c = st.documents.length) ∧
    (∀ (search : String → List String) (st : AppState),
        DocPlaylist.query search st "all" "" = st.documents) ∧
    (∀ (search : String → List String) (st : AppState) (s : PersistentStore),
        DocPlaylist.query search { st with store := s } "all" "" =
          DocPlaylist.query search st "all" "") ∧
    (∀ (st : AppState) (c : Collection), c.id = "all" →
        Paperplay.displayedDocs (some c) st.documents = st.documents ∧
        Paperplay.sidebarCount st c = st.documents.length) ∧
    (∀ (search : String → List String) (st : AppState),
        Paperplay.query search st "all" "" = st.documents) ∧
    (∀ (search : String → List String) (st : AppState) (s : PersistentStore),
        Paperplay.query search { st with store := s } "all" "" =
          Paperplay.query search st "all" "") := by
  refine ⟨?_, app_query_all, fun _ _ _ => rfl, ?_, p0_query_all, fun _ _ _ => rfl⟩
  · intro st c h
    exact ⟨app_displayedDocs_all h st.documents, by simp [DocPlaylist.sidebarCount, h]⟩
  · intro st c h
    exact ⟨p0_displayedDocs_all h st.documents, by simp [Paperplay.sidebarCount, h]⟩

/-- Witness for C1 at a concrete state whose stored `"all"` record carries a
stale, bogus membership array. -/
theorem c1_all_effective_membership_witness :
    DocPlaylist.query (fun _ => []) ⟨[⟨"d1", "a", "t", 0⟩],
        [⟨"all", "All Documents", ["zzz"]⟩], [], ⟨[], []⟩⟩ "all" "" = [⟨"d1", "a", "t", 0⟩] ∧
    Paperplay.sidebarCount ⟨[⟨"d1", "a", "t", 0⟩],
        [⟨"all", "All Documents", ["zzz"]⟩], [], ⟨[], []⟩⟩ ⟨"all", "All Documents", ["zzz"]⟩ = 1 := by
  constructor
  · exact c1_all_effective_membership.2.1 (fun _ => []) _
  · have h := (c1_all_effective_membership.2.2.2.1
      ⟨[⟨"d1", "a", "t", 0⟩], [⟨"all", "All Documents", ["zzz"]⟩], [], ⟨[], []⟩⟩
      ⟨"all", "All Documents", ["zzz"]⟩ rfl).2
    simpa using h

/-! ### Claim C4 -/

/-- Claim C4: a non-empty search is global — its result does not depend on
the active collection id, in either variant, and every returned document is
resolved against the snapshot with unresolvable index hits dropped. -/
theorem c4_search_is_global (search : String → List String) (st : AppState)
    (q c1 c2 : String) (hq : q ≠ "") :
    DocPlaylist.query search st c1 q = DocPlaylist.query search st c2 q ∧
    (∀ d ∈ DocPlaylist.query search st c1 q, d ∈ st.documents ∧ d.id ∈ search q) ∧
    Paperplay.query search st c1 q = Paperplay.query search st c2 q ∧
    (∀ d ∈ Paperplay.query search st c1 q, d ∈ st.documents ∧ d.id ∈ search q) := by
  have happ : ∀ c : String, DocPlaylist.query search st c q =
      (search q).filterMap (fun rid => st.documents.find? (fun d => d.id == rid)) := by
    intro c
    simp [DocPlaylist.query, DocPlaylist.filteredDocs, hq]
  have hp0 : ∀ c : String, Paperplay.query search st c q =
      (search q).filterMap (fun rid => st.documents.find? (fun d => d.id == rid)) := by
    intro c
    simp [Paperplay.query, Paperplay.filteredDocs, hq]
  have hres : ∀ d ∈ (search q).filterMap (fun rid => st.documents.find? (fun d => d.id == rid)),
      d ∈ st.documents ∧ d.id ∈ search q := by
    intro d hd
    obtain ⟨rid, hrid, hfind⟩ := List.mem_filterMap.mp hd
    have hdid : d.id = rid := by simpa [beq_iff_eq] using List.find?_some hfind
    exact ⟨List.mem_of_find?_eq_some hfind, hdid ▸ hrid⟩
  refine ⟨by rw [happ c1, happ c2], ?_, by rw [hp0 c1, hp0 c2], ?_⟩
  · rw [happ c1]; exact hres
  · rw [hp0 c1]; exact hres

/-- Witness for C4: a concrete non-empty query against a two-document state,
with a ranking function returning one resolvable and one unresolvable id. -/
theorem c4_search_is_global_witness :
    DocPlaylist.query (fun _ => ["d2", "ghost"]) ⟨[⟨"d1", "widget-report", "t", 0⟩,
        ⟨"d2", "other", "t", 0⟩], [⟨"all", "All Documents", []⟩], [], ⟨[], []⟩⟩ "all" "x" =
      DocPlaylist.query (fun _ => ["d2", "ghost"]) ⟨[⟨"d1", "widget-report", "t", 0⟩,
        ⟨"d2", "other", "t", 0⟩], [⟨"all", "All Documents", []⟩], [], ⟨[], []⟩⟩ "other" "x" ∧
    Paperplay.query (fun _ => ["d2", "ghost"]) ⟨[⟨"d1", "widget-report", "t", 0⟩,
        ⟨"d2", "other", "t", 0⟩], [⟨"all", "All Documents", []⟩], [], ⟨[], []⟩⟩ "all" "x" =
      Paperplay.query (fun _ => ["d2", "ghost"]) ⟨[⟨"d1", "widget-report", "t", 0⟩,
        ⟨"d2", "other", "t", 0⟩], [⟨"all", "All Documents", []⟩], [], ⟨[], []⟩⟩ "other" "x" := by
  have h := c4_search_is_global (fun _ => ["d2", "ghost"])
    ⟨[⟨"d1", "widget-report", "t", 0⟩, ⟨"d2", "other", "t", 0⟩],
      [⟨"all", "All Documents", []⟩], [], ⟨[], []⟩⟩ "x" "all" "other" (by decide)
  exact ⟨h.1, h.2.2.1⟩

/-! ### Claim C3 -/

/-- Claim C3: with an empty search string, `query(c, "")` returns exactly the
active collection's membership resolved against the snapshot — every
document when `c = "all"`, and otherwise exactly the snapshot documents
whose ids appear in the collection's membership array, with no duplicate
ids and silently skipping membership ids that resolve to no document. -/
theorem c3_query_empty_resolves_membership (search : String → List String) (st : AppState)
    (collId : String) (co : Collection)
    (hnd : (docIds st.documents).Nodup)
    (hfind : st.collections.find? (fun c => c.id == collId) = some co)
    (hall : collId ≠ "all") :
    (∀ d, d ∈ DocPlaylist.query search st collId "" ↔
        d ∈ st.documents ∧ d.id ∈ co.documentIds) ∧
    (docIds (DocPlaylist.query search st collId "")).Nodup ∧
    (∀ d, d ∈ Paperplay.query search st collId "" ↔
        d ∈ st.documents ∧ d.id ∈ co.documentIds) ∧
    (docIds (Paperplay.query search st collId "")).Nodup ∧
    DocPlaylist.query search st "all" "" = st.documents ∧
    Paperplay.query search st "all" "" = st.documents := by
  have hco : co.id = collId := by
    simpa [beq_iff_eq] using List.find?_some hfind
  have hcoall : co.id ≠ "all" := hco ▸ hall
  have hfalse : (co.id == "all") = false := beq_eq_false_iff_ne.mpr hcoall
  have happ : DocPlaylist.query search st collId "" =
      st.documents.filter (fun d => co.documentIds.contains d.id) := by
    rw [app_query_empty, hfind]
    simp [DocPlaylist.displayedDocs, hfalse]
  have hp0 : Paperplay.query search st collId "" =
      st.documents.filter (fun d => co.documentIds.contains d.id) := by
    rw [p0_query_empty, hfind]
    simp [Paperplay.displayedDocs, hcoall]
  have hmem : ∀ d, d ∈ st.documents.filter (fun d => co.documentIds.contains d.id) ↔
      d ∈ st.documents ∧ d.id ∈ co.documentIds := by
    intro d
    simp [List.mem_filter]
  have hnodup : (docIds (st.documents.filter (fun d => co.documentIds.contains d.id))).Nodup := by
    have hsub : (docIds (st.documents.filter (fun d => co.documentIds.contains d.id))).Sublist
        (docIds st.documents) := by
      unfold docIds
      exact List.Sublist.map (fun d : Document => d.id) (List.filter_sublist st.documents)
    exact List.Nodup.sublist hsub hnd
  refine ⟨?_, ?_, ?_, ?_, app_query_all search st, p0_query_all search st⟩
  · rw [happ]; exact hmem
  · rw [happ]; exact hnodup
  · rw [hp0]; exact hmem
  · rw [hp0]; exact hnodup

/-- Witness for C3 at a concrete two-document state with a collection whose
membership holds one resolvable id and one dangling id. -/
theorem c3_query_empty_resolves_membership_witness :
    ((⟨"d2", "b", "t", 0⟩ : Document) ∈ DocPlaylist.query (fun _ => [])
        ⟨[⟨"d1", "a", "t", 0⟩, ⟨"d2", "b", "t", 0⟩],
          [⟨"all", "All Documents", []⟩, ⟨"c1", "Tax", ["d2", "ghost"]⟩], [], ⟨[], []⟩⟩ "c1" "" ↔
      (⟨"d2", "b", "t", 0⟩ : Document) ∈ [⟨"d1", "a", "t", 0⟩, (⟨"d2", "b", "t", 0⟩ : Document)] ∧
        ("d2" : String) ∈ ["d2", "ghost"]) ∧
    Paperplay.query (fun _ => []) ⟨[⟨"d1", "a", "t", 0⟩, ⟨"d2", "b", "t", 0⟩],
        [⟨"all", "All Documents", []⟩, ⟨"c1", "Tax", ["d2", "ghost"]⟩], [], ⟨[], []⟩⟩ "all" "" =
      [⟨"d1", "a", "t", 0⟩, ⟨"d2", "b", "t", 0⟩] := by
  have h := c3_query_empty_resolves_membership (fun _ => [])
    ⟨[⟨"d1", "a", "t", 0⟩, ⟨"d2", "b", "t", 0⟩],
      [⟨"all", "All Documents", []⟩, ⟨"c1", "Tax", ["d2", "ghost"]⟩], [], ⟨[], []⟩⟩
    "c1" ⟨"c1", "Tax", ["d2", "ghost"]⟩ (by decide) (by decide) (by decide)
  exact ⟨h.1 ⟨"d2", "b", "t", 0⟩, h.2.2.2.2.2⟩

/-! ### Claim C2 -/

/-- Claim C2: assigning a document id that is already a member of the target
collection is a complete no-op in both variants, and consequently — over all
reachable states — every collection's membership array contains each
document id at most once. -/
theorem c2_assignment_idempotent :
    (∀ (ok : Bool) (st : AppState) (a o : String) (target : Collection),
        st.collections.find? (fun c => c.id == o) = some target →
        a ∈ target.documentIds →
        DocPlaylist.handleDragEnd ok st a o = st) ∧
    (∀ (ok : Bool) (st : AppState) (a o : String),
        (∀ c ∈ st.collections, c.id = o → a ∈ c.documentIds) →
        Paperplay.handleDragEnd ok st a o = st) ∧
    (∀ st : AppState, DocPlaylist.Reach st → ∀ c ∈ st.collections, c.documentIds.Nodup) ∧
    (∀ st : AppState, Paperplay.Reach st → ∀ c ∈ st.collections, c.documentIds.Nodup) := by
  refine ⟨?_, ?_, ?_, ?_⟩
  · intro ok st a o target hfind hmem
    exact app_drag_member hfind hmem ok
  · intro ok st a o h
    exact p0_drag_member h ok
  · intro st h c hc
    exact (app_reach_inv h).memNodup c hc
  · intro st h c hc
    exact (p0_reach_inv h).memNodup c hc

/-- Witness for C2: re-assigning `"d1"` to a collection already holding it
leaves the concrete state untouched in both variants, and the claim's
duplicate-freedom holds at the initial reachable state. -/
theorem c2_assignment_idempotent_witness :
    DocPlaylist.handleDragEnd true ⟨[], [⟨"c1", "Tax", ["d1"]⟩], [], ⟨[], []⟩⟩ "d1" "c1" =
      ⟨[], [⟨"c1", "Tax", ["d1"]⟩], [], ⟨[], []⟩⟩ ∧
    Paperplay.handleDragEnd true ⟨[], [⟨"c1", "Tax", ["d1"]⟩], [], ⟨[], []⟩⟩ "d1" "c1" =
      ⟨[], [⟨"c1", "Tax", ["d1"]⟩], [], ⟨[], []⟩⟩ ∧
    (⟨"all", "All Documents", []⟩ : Collection).documentIds.Nodup := by
  refine ⟨?_, ?_, ?_⟩
  · exact c2_assignment_idempotent.1 true _ "d1" "c1" ⟨"c1", "Tax", ["d1"]⟩ (by decide) (by decide)
  · exact c2_assignment_idempotent.2.1 true _ "d1" "c1" (by decide)
  · exact c2_assignment_idempotent.2.2.1 (DocPlaylist.initApp [] []) DocPlaylist.Reach.start
      ⟨"all", "All Documents", []⟩ (by decide)

/-! ### Claim C5 -/

/-- Counterexample to C5 as stated: in the part_000 variant a failed persist
does not leave the snapshot unchanged.  At a concrete state holding one
empty collection `"c1"`, dropping `"d1"` on `"c1"` while every fired
`db.put` fails still rewrites the in-memory collection. -/
theorem c5_counterexample :
    Paperplay.handleDragEnd false
        ⟨[⟨"d1", "a", "t", 0⟩], [⟨"all", "All Documents", []⟩, ⟨"c1", "Tax", []⟩],
          [⟨"d1", "a"⟩], ⟨[⟨"d1", "a", "t", 0⟩], [⟨"c1", "Tax", []⟩]⟩⟩ "d1" "c1" ≠
      ⟨[⟨"d1", "a", "t", 0⟩], [⟨"all", "All Documents", []⟩, ⟨"c1", "Tax", []⟩],
        [⟨"d1", "a"⟩], ⟨[⟨"d1", "a", "t", 0⟩], [⟨"c1", "Tax", []⟩]⟩⟩ := by
  decide

/-- Amended C5: only the App.tsx variant persists the updated collection
before reflecting it — there a failed persist leaves the whole state
unchanged, and a successful assignment updates the store and replaces the
one collection's whole record in the snapshot without touching the
documents.  In the part_000 variant the snapshot is rewritten while the
persist is fired without being awaited, so a failed persist leaves the
snapshot updated and only the store unchanged. -/
theorem c5_persist_then_reflect :
    (∀ (st : AppState) (a o : String), DocPlaylist.handleDragEnd false st a o = st) ∧
    (∀ (st : AppState) (a o : String) (target : Collection),
        st.collections.find? (fun c => c.id == o) = some target →
        a ∉ target.documentIds → a ≠ o →
        (DocPlaylist.handleDragEnd true st a o).store.collections =
            putColl st.store.collections ⟨target.id, target.name, target.documentIds ++ [a]⟩ ∧
          (DocPlaylist.handleDragEnd true st a o).collections =
            st.collections.map (fun c =>
              if c.id = o then ⟨target.id, target.name, target.documentIds ++ [a]⟩ else c) ∧
          (DocPlaylist.handleDragEnd true st a o).documents = st.documents) ∧
    (∀ (st : AppState) (a o : String), a ≠ o → o ≠ "all" →
        (Paperplay.handleDragEnd false st a o).store = st.store ∧
          (Paperplay.handleDragEnd false st a o).collections =
            st.collections.map (Paperplay.assignTo a o)) := by
  refine ⟨app_drag_fail, ?_, ?_⟩
  · intro st a o target hfind hmem hao
    unfold DocPlaylist.handleDragEnd
    rw [if_neg hao, hfind]
    simp [hmem]
  · intro st a o hao hall
    unfold Paperplay.handleDragEnd
    rw [if_neg hao, if_neg hall]
    simp

/-- Witness for the amended C5 at concrete states: a failed persist is a
complete no-op in the App.tsx variant, a successful one both persists and
reflects, and the part_000 variant leaves the store alone on failure. -/
theorem c5_persist_then_reflect_witness :
    DocPlaylist.handleDragEnd false ⟨[], [⟨"c1", "Tax", []⟩], [], ⟨[], [⟨"c1", "Tax", []⟩]⟩⟩
        "d1" "c1" = ⟨[], [⟨"c1", "Tax", []⟩], [], ⟨[], [⟨"c1", "Tax", []⟩]⟩⟩ ∧
    (DocPlaylist.handleDragEnd true ⟨[], [⟨"c1", "Tax", []⟩], [], ⟨[], [⟨"c1", "Tax", []⟩]⟩⟩
        "d1" "c1").store.collections =
      putColl [⟨"c1", "Tax", []⟩] ⟨"c1", "Tax", ["d1"]⟩ ∧
    (Paperplay.handleDragEnd false ⟨[], [⟨"c1", "Tax", []⟩], [], ⟨[], [⟨"c1", "Tax", []⟩]⟩⟩
        "d1" "c1").store = ⟨[], [⟨"c1", "Tax", []⟩]⟩ := by
  refine ⟨c5_persist_then_reflect.1 _ "d1" "c1", ?_, ?_⟩
  · exact (c5_persist_then_reflect.2.1 ⟨[], [⟨"c1", "Tax", []⟩], [], ⟨[], [⟨"c1", "Tax", []⟩]⟩⟩
      "d1" "c1" ⟨"c1", "Tax", []⟩ (by decide) (by decide) (by decide)).1
  · exact (c5_persist_then_reflect.2.2 ⟨[], [⟨"c1", "Tax", []⟩], [], ⟨[], [⟨"c1", "Tax", []⟩]⟩⟩
      "d1" "c1" (by decide) (by decide)).1

/-! ### Claim C6 -/

/-- Counterexample to C6 as stated: in the App.tsx variant, assigning a
freshly uploaded document to the `"all"` collection is not a no-op — the
reachable state below (fresh install, one uploaded image) has `"all"`
stored with an empty membership array, so the drop appends `"d1"` to it and
persists the mutated record. -/
theorem c6_counterexample :
    DocPlaylist.handleDragEnd true
        (DocPlaylist.upload (DocPlaylist.initApp [] [])
          [⟨⟨"n.png", "image/png", true⟩, "d1", true⟩]) "d1" "all" ≠
      DocPlaylist.upload (DocPlaylist.initApp [] [])
        [⟨⟨"n.png", "image/png", true⟩, "d1", true⟩] := by
  decide

/-- Amended C6: assignment to `"all"` is a complete silent no-op in the
part_000 variant; in the App.tsx variant it may mutate and persist the
stored `"all"` record, but the `"all"` membership observed at query time
still equals the full document list afterwards.  Assignment to a target id
that exists in no collection is a silent no-op in both variants. -/
theorem c6_assign_all_noop :
    (∀ (ok : Bool) (st : AppState) (a : String),
        Paperplay.handleDragEnd ok st a "all" = st) ∧
    (∀ (ok : Bool) (st : AppState) (a o : String),
        (∀ c ∈ st.collections, c.id ≠ o) →
        DocPlaylist.handleDragEnd ok st a o = st ∧ Paperplay.handleDragEnd ok st a o = st) ∧
    (∀ (search : String → List String) (ok : Bool) (st : AppState) (a : String),
        DocPlaylist.query search (DocPlaylist.handleDragEnd ok st a "all") "all" "" =
          st.documents) := by
  refine ⟨p0_drag_all, ?_, ?_⟩
  · intro ok st a o h
    exact ⟨app_drag_unknown h ok a, p0_drag_unknown h ok a⟩
  · intro search ok st a
    rw [app_query_all, app_drag_docs]

/-- Witness for the amended C6 at concrete states, including the queried
`"all"` membership after a drop onto `"all"` in the App.tsx variant. -/
theorem c6_assign_all_noop_witness :
    Paperplay.handleDragEnd true ⟨[⟨"d1", "a", "t", 0⟩], [⟨"all", "All Documents", []⟩],
        [], ⟨[], []⟩⟩ "d1" "all" =
      ⟨[⟨"d1", "a", "t", 0⟩], [⟨"all", "All Documents", []⟩], [], ⟨[], []⟩⟩ ∧
    DocPlaylist.handleDragEnd true ⟨[⟨"d1", "a", "t", 0⟩], [⟨"all", "All Documents", []⟩],
        [], ⟨[], []⟩⟩ "d1" "ghost" =
      ⟨[⟨"d1", "a", "t", 0⟩], [⟨"all", "All Documents", []⟩], [], ⟨[], []⟩⟩ ∧
    DocPlaylist.query (fun _ => []) (DocPlaylist.handleDragEnd true
        ⟨[⟨"d1", "a", "t", 0⟩], [⟨"all", "All Documents", []⟩], [], ⟨[], []⟩⟩ "d1" "all")
        "all" "" = [⟨"d1", "a", "t", 0⟩] := by
  refine ⟨c6_assign_all_noop.1 true _ "d1", ?_, ?_⟩
  · exact (c6_assign_all_noop.2.1 true _ "d1" "ghost" (by decide)).1
  · exact c6_assign_all_noop.2.2 (fun _ => []) true _ "d1"

/-! ### Claim C7 -/

/-- Counterexample to C7 as stated: the App.tsx variant stores the file name
verbatim (`name: file.name`), so uploading `report.pdf` from a fresh
install creates a document named `report.pdf`, not the extension-stripped
`report`. -/
theorem c7_counterexample :
    (DocPlaylist.upload (DocPlaylist.initApp [] [])
        [⟨⟨"report.pdf", "application/pdf", true⟩, "id1", true⟩]).documents.map
        (fun d => d.name) = ["report.pdf"] ∧
    stripExt "report.pdf" = "report" ∧ ("report.pdf" : String) ≠ ("report" : String) := by
  decide

/-- Amended C7: the document created for an uploaded file carries the
extension-stripped file name in the part_000 variant, and the verbatim file
name in the App.tsx variant. -/
theorem c7_upload_display_name :
    (∀ (st : AppState) (it : UploadItem) (thumb : String),
        Paperplay.createThumbnail it.file = some thumb → it.putOk = true →
        (Paperplay.upload st [it]).documents =
          st.documents ++ [⟨it.fid, stripExt it.file.name, thumb, 0⟩]) ∧
    (∀ (st : AppState) (it : UploadItem) (thumb : String),
        DocPlaylist.createThumbnail it.file = some thumb → it.putOk = true →
        (DocPlaylist.upload st [it]).documents =
          st.documents ++ [⟨it.fid, it.file.name, thumb, 0⟩]) := by
  constructor
  · intro st it thumb hth hok
    simp [Paperplay.upload, Paperplay.uploadLoop, hth, hok]
  · intro st it thumb hth hok
    simp [DocPlaylist.upload, hth, hok]

/-- Witness for the amended C7: uploading `report.pdf` on a fresh install
yields name `report` in part_000 and name `report.pdf` in App.tsx. -/
theorem c7_upload_display_name_witness :
    (Paperplay.upload (Paperplay.initApp [] [])
        [⟨⟨"report.pdf", "application/pdf", true⟩, "id1", true⟩]).documents =
      (Paperplay.initApp [] []).documents ++
        [⟨"id1", stripExt "report.pdf", Paperplay.createFallbackThumbnail "pdf", 0⟩] ∧
    (DocPlaylist.upload (DocPlaylist.initApp [] [])
        [⟨⟨"report.pdf", "application/pdf", true⟩, "id1", true⟩]).documents =
      (DocPlaylist.initApp [] []).documents ++ [⟨"id1", "report.pdf", "/pdf-icon.png", 0⟩] := by
  constructor
  · exact c7_upload_display_name.1 (Paperplay.initApp [] [])
      ⟨⟨"report.pdf", "application/pdf", true⟩, "id1", true⟩
      (Paperplay.createFallbackThumbnail "pdf") rfl rfl
  · exact c7_upload_display_name.2 (DocPlaylist.initApp [] [])
      ⟨⟨"report.pdf", "application/pdf", true⟩, "id1", true⟩ "/pdf-icon.png" rfl rfl

/-! ### Claim C8 -/

/-- Counterexample to C8 as stated: the App.tsx thumbnail generator is not
total.  It treats every non-PDF file as an image and installs no `onerror`
handler, so for a non-image file (or any failed decode) the promise never
settles — modelled as `none`. -/
theorem c8_counterexample :
    DocPlaylist.createThumbnail ⟨"notes.txt", "text/plain", false⟩ = none := by
  decide

/-- Amended C8: the part_000 generator is total — image-likes render onto
the 200×280 canvas or fall back to the image placeholder on a failed
decode, PDFs and everything else get their kind-specific placeholders —
while the App.tsx generator resolves only PDFs (static placeholder) and
successfully decoded files, and never settles on a failed decode. -/
theorem c8_thumbnail_totality :
    (∀ f : FileInput, (Paperplay.createThumbnail f).isSome = true) ∧
    (∀ f : FileInput, isImageType f.ftype = true → f.decodeOk = true →
        Paperplay.createThumbnail f = some (canvasThumb f)) ∧
    (∀ f : FileInput, isImageType f.ftype = true → f.decodeOk = false →
        Paperplay.createThumbnail f = some (Paperplay.createFallbackThumbnail "image")) ∧
    (∀ f : FileInput, f.ftype = "application/pdf" →
        Paperplay.createThumbnail f = some (Paperplay.createFallbackThumbnail "pdf")) ∧
    (∀ f : FileInput, isImageType f.ftype = false → f.ftype ≠ "application/pdf" →
        Paperplay.createThumbnail f = some (Paperplay.createFallbackThumbnail "file")) ∧
    (∀ f : FileInput, f.ftype = "application/pdf" →
        DocPlaylist.createThumbnail f = some "/pdf-icon.png") ∧
    (∀ f : FileInput, f.ftype ≠ "application/pdf" → f.decodeOk = false →
        DocPlaylist.createThumbnail f = none) := by
  refine ⟨?_, ?_, ?_, ?_, ?_, ?_, ?_⟩
  · intro f
    unfold Paperplay.createThumbnail
    split_ifs <;> simp
  · intro f h1 h2
    simp [Paperplay.createThumbnail, h1, h2]
  · intro f h1 h2
    simp [Paperplay.createThumbnail, h1, h2]
  · intro f h1
    have himg : isImageType "application/pdf" = false := by decide
    simp [Paperplay.createThumbnail, h1, himg]
  · intro f h1 h2
    simp [Paperplay.createThumbnail, h1, h2]
  · intro f h1
    simp [DocPlaylist.createThumbnail, h1]
  · intro f h1 h2
    simp [DocPlaylist.createThumbnail, h1, h2]

/-- Witness for the amended C8 across the concrete file kinds. -/
theorem c8_thumbnail_totality_witness :
    (Paperplay.createThumbnail ⟨"x", "y", true⟩).isSome = true ∧
    Paperplay.createThumbnail ⟨"p.png", "image/png", true⟩ =
      some (canvasThumb ⟨"p.png", "image/png", true⟩) ∧
    Paperplay.createThumbnail ⟨"b.png", "image/png", false⟩ =
      some (Paperplay.createFallbackThumbnail "image") ∧
    Paperplay.createThumbnail ⟨"r.pdf", "application/pdf", true⟩ =
      some (Paperplay.createFallbackThumbnail "pdf") ∧
    Paperplay.createThumbnail ⟨"n.txt", "text/plain", true⟩ =
      some (Paperplay.createFallbackThumbnail "file") ∧
    DocPlaylist.createThumbnail ⟨"r.pdf", "application/pdf", true⟩ = some "/pdf-icon.png" ∧
    DocPlaylist.createThumbnail ⟨"n.txt", "text/plain", false⟩ = none := by
  refine ⟨c8_thumbnail_totality.1 ⟨"x", "y", true⟩, ?_, ?_, ?_, ?_, ?_, ?_⟩
  · exact c8_thumbnail_totality.2.1 ⟨"p.png", "image/png", true⟩ (by decide) rfl
  · exact c8_thumbnail_totality.2.2.1 ⟨"b.png", "image/png", false⟩ (by decide) rfl
  · exact c8_thumbnail_totality.2.2.2.1 ⟨"r.pdf", "application/pdf", true⟩ rfl
  · exact c8_thumbnail_totality.2.2.2.2.1 ⟨"n.txt", "text/plain", true⟩ (by decide) (by decide)
  · exact c8_thumbnail_totality.2.2.2.2.2.1 ⟨"r.pdf", "application/pdf", true⟩ rfl
  · exact c8_thumbnail_totality.2.2.2.2.2.2 ⟨"n.txt", "text/plain", false⟩ (by decide) rfl

/-! ### Claim C9 -/

/-- Claim C9: in every reachable state of either variant the Search Index's
id set is a subset of the Persistent Store's document id set — indeed the
two coincide, which gives the required exact equality immediately after the
startup load (shown for arbitrary loaded tables) and after every completed
upload (upload steps are reachability steps). -/
theorem c9_index_store_consistency :
    (∀ st : AppState, DocPlaylist.Reach st →
        (∀ i ∈ idxIds st.index, i ∈ docIds st.store.documents) ∧
        idxIds st.index = docIds st.store.documents) ∧
    (∀ (sd : List Document) (sc : List Collection),
        idxIds (DocPlaylist.initApp sd sc).index =
          docIds (DocPlaylist.initApp sd sc).store.documents) ∧
    (∀ st : AppState, Paperplay.Reach st →
        (∀ i ∈ idxIds st.index, i ∈ docIds st.store.documents) ∧
        idxIds st.index = docIds st.store.documents) ∧
    (∀ (sd : List Document) (sc : List Collection),
        idxIds (Paperplay.initApp sd sc).index =
          docIds (Paperplay.initApp sd sc).store.documents) := by
  refine ⟨?_, ?_, ?_, ?_⟩
  · intro st hr
    have h := (app_reach_inv hr).idxEq
    exact ⟨fun i hi => h ▸ hi, h⟩
  · intro sd sc
    simpa [DocPlaylist.initApp] using idxIds_rebuild sd
  · intro st hr
    have h := (p0_reach_inv hr).idxEq
    exact ⟨fun i hi => h ▸ hi, h⟩
  · intro sd sc
    simpa [Paperplay.initApp] using idxIds_rebuild sd

/-- Witness for C9: exact index/store agreement at the fresh-install state
of App.tsx and after a completed one-file upload in part_000. -/
theorem c9_index_store_consistency_witness :
    idxIds (DocPlaylist.initApp [] []).index =
      docIds (DocPlaylist.initApp [] []).store.documents ∧
    idxIds (Paperplay.upload (Paperplay.initApp [] [])
        [⟨⟨"a.png", "image/png", true⟩, "d1", true⟩]).index =
      docIds (Paperplay.upload (Paperplay.initApp [] [])
        [⟨⟨"a.png", "image/png", true⟩, "d1", true⟩]).store.documents := by
  constructor
  · exact (c9_index_store_consistency.1 (DocPlaylist.initApp [] []) DocPlaylist.Reach.start).2
  · exact (c9_index_store_consistency.2.2.1 _
      (Paperplay.Reach.upload [⟨⟨"a.png", "image/png", true⟩, "d1", true⟩]
        Paperplay.Reach.start ⟨by decide, by decide⟩)).2

/-! ### Claim C10 -/

/-- Claim C10: `query(c, "")` always returns an order-preserving subsequence
of the snapshot's document list, and every upload only appends documents to
the end of that list — so empty-query results come back in upload
(insertion) order, in both variants. -/
theorem c10_upload_insertion_order :
    (∀ (search : String → List String) (st : AppState) (collId : String),
        (DocPlaylist.query search st collId "").Sublist st.documents) ∧
    (∀ (st : AppState) (items : List UploadItem), ∃ added : List Document,
        (DocPlaylist.upload st items).documents = st.documents ++ added) ∧
    (∀ (search : String → List String) (st : AppState) (collId : String),
        (Paperplay.query search st collId "").Sublist st.documents) ∧
    (∀ (st : AppState) (items : List UploadItem), ∃ added : List Document,
        (Paperplay.upload st items).documents = st.documents ++ added) := by
  refine ⟨?_, ?_, ?_, ?_⟩
  · intro search st collId
    rw [app_query_empty]
    cases st.collections.find? (fun c => c.id == collId) with
    | none => exact List.Sublist.refl _
    | some c =>
      simp only [DocPlaylist.displayedDocs]
      exact List.filter_sublist _
  · intro st items
    obtain ⟨added, h1, _, _⟩ := app_upload_docs items st
    exact ⟨added, h1⟩
  · intro search st collId
    rw [p0_query_empty]
    cases st.collections.find? (fun c => c.id == collId) with
    | none => exact List.Sublist.refl _
    | some c =>
      simp only [Paperplay.displayedDocs]
      by_cases h : c.id = "all"
      · rw [if_pos h]
      · rw [if_neg h]
        exact List.filter_sublist _
  · intro st items
    obtain ⟨added, h1, _⟩ := p0_upload_docs st items
    exact ⟨added, h1⟩
